import Mathlib

/-!
# Verification of the unstake liquidity pool model

A shallow embedding of the `liquidity_pool` Rust crate: the numeric core
(`calc.rs`), the error taxonomy (`error.rs`) and the pool state machine
(`liq_pool.rs`).  Machine integers (`u64`) are modelled as `Nat` with an
explicit bound `U64 = 2 ^ 64`; every place where the Rust code can abort the
process (an explicit abort in `LiqPool::new`, an overflow-checked `u64`
addition or subtraction, or a division by zero in `u128` arithmetic) is
modelled by the distinguished outcome `Outcome.abort`.  A fallible function
returning `Result<T>` becomes a function into `Outcome T`; a method taking
`&mut self` additionally returns the post-call pool state, which equals the
input state on every early `return Err(..)` path.
-/

namespace LiquidityPool

/-- `calc.rs`: how 1 token is represented as a `u64` number; values less than
`UNIT` are fractions. -/
def UNIT : Nat := 1000000000

/-- The number of values of `u64`: `2 ^ 64`.  A `u64` quantity is a `Nat`
strictly below `U64`. -/
def U64 : Nat := 18446744073709551616

/-- `error.rs`: the three error kinds of `LiqPoolError`. -/
inductive LiqPoolError where
  | CalculationError
  | InvalidInputData (msg : String)
  | InsufficientLiquidity
deriving DecidableEq

/-- The outcome of running a fallible Rust function: a returned `Ok` value, a
returned `Err` value, or a process abort (overflow-checked arithmetic,
division by zero, or an explicit abort). -/
inductive Outcome (α : Type) where
  | ok (a : α)
  | err (e : LiqPoolError)
  | abort
deriving DecidableEq

/-- The message carried by `remove_liquidity`'s `InvalidInputData` error. -/
def removeLiquidityMsg : String :=
  "tried to remove more liquidity than it was possible with currently minted tokens"

/-- `calc.rs`: `propotion(amount, nominator, denominator)` computes
`amount * (nominator / denominator)`.  The multiplication is performed in
`u128`, where a product of two `u64` values cannot overflow; dividing by a
zero denominator aborts the process, and `u64::try_from` fails with
`CalculationError` when the quotient does not fit in 64 bits. -/
def propotion (amount nominator denominator : Nat) : Outcome Nat :=
  if denominator = 0 then .abort
  else if amount * nominator / denominator < U64 then .ok (amount * nominator / denominator)
  else .err .CalculationError

/-- `calc.rs`: `value(amount, price) = propotion(amount, price, UNIT)`. -/
def value (amount price : Nat) : Outcome Nat :=
  propotion amount price UNIT

/-- `calc.rs`: `shares(value, total_value, total_shares)`; on the first mint
(`total_shares == 0`) the deposited value itself, otherwise
`propotion(value, total_shares, total_value)`. -/
def shares (v total_value total_shares : Nat) : Outcome Nat :=
  if total_shares = 0 then .ok v
  else propotion v total_shares total_value

/-- `calc.rs`: `apply_fee(amount, fee) = amount - value(amount, fee)?`.  The
`u64` subtraction is unchecked in the source and aborts the process when it
underflows (overflow-checked build). -/
def apply_fee (amount fee : Nat) : Outcome Nat :=
  match value amount fee with
  | .ok v => if v ≤ amount then .ok (amount - v) else .abort
  | .err e => .err e
  | .abort => .abort

/-- `liq_pool.rs`: the pool state, three fee parameters fixed at construction
and three mutable balances. -/
structure LiqPool where
  max_fee : Nat
  min_fee : Nat
  liq_target : Nat
  token : Nat
  st_token : Nat
  lp_token_supply : Nat
deriving DecidableEq

/-- `liq_pool.rs`: `LiqPool::new`.  When `max_fee < min_fee` the source
aborts the process (`"LiqPool: Max fee cannot be smaller than min fee"`);
otherwise the pool starts with zero balances. -/
def LiqPool.new (max_fee min_fee liq_target : Nat) : Outcome LiqPool :=
  if max_fee < min_fee then .abort
  else .ok { max_fee := max_fee, min_fee := min_fee, liq_target := liq_target,
             token := 0, st_token := 0, lp_token_supply := 0 }

/-- `liq_pool.rs`: `LiqPool::add_liquidity`.  `self.st_token + self.token`,
`self.token += token_amount` and `self.lp_token_supply += lp_token_to_mint`
are overflow-checked `u64` additions, in that order. -/
def LiqPool.add_liquidity (p : LiqPool) (token_amount : Nat) : Outcome Nat × LiqPool :=
  if U64 ≤ p.st_token + p.token then (.abort, p)
  else
    match shares token_amount (p.st_token + p.token) p.lp_token_supply with
    | .ok lp_token_to_mint =>
      if U64 ≤ p.token + token_amount then (.abort, p)
      else if U64 ≤ p.lp_token_supply + lp_token_to_mint then
        (.abort, { p with token := p.token + token_amount })
      else
        (.ok lp_token_to_mint,
          { p with token := p.token + token_amount,
                   lp_token_supply := p.lp_token_supply + lp_token_to_mint })
    | .err e => (.err e, p)
    | .abort => (.abort, p)

/-- `liq_pool.rs`: `LiqPool::remove_liquidity`.  The three `-=` updates are
underflow-checked `u64` subtractions, applied in source order
(`lp_token_supply`, then `token`, then `st_token`); the first cannot
underflow because of the guard. -/
def LiqPool.remove_liquidity (p : LiqPool) (lp_token_amount : Nat) :
    Outcome (Nat × Nat) × LiqPool :=
  if p.lp_token_supply < lp_token_amount then
    (.err (.InvalidInputData removeLiquidityMsg), p)
  else
    match propotion lp_token_amount p.token p.lp_token_supply with
    | .ok token_amount =>
      match propotion lp_token_amount p.st_token p.lp_token_supply with
      | .ok st_token_amount =>
        if token_amount ≤ p.token then
          if st_token_amount ≤ p.st_token then
            (.ok (token_amount, st_token_amount),
              { p with lp_token_supply := p.lp_token_supply - lp_token_amount,
                       token := p.token - token_amount,
                       st_token := p.st_token - st_token_amount })
          else
            (.abort, { p with lp_token_supply := p.lp_token_supply - lp_token_amount,
                              token := p.token - token_amount })
        else
          (.abort, { p with lp_token_supply := p.lp_token_supply - lp_token_amount })
      | .err e => (.err e, p)
      | .abort => (.abort, p)
    | .err e => (.err e, p)
    | .abort => (.abort, p)

/-- `liq_pool.rs`: `LiqPool::linear_fee`.  The guard makes
`self.token - st_token_amount` safe; `self.max_fee - self.min_fee` and
`self.max_fee - propotion(..)` are underflow-checked `u64` subtractions. -/
def LiqPool.linear_fee (p : LiqPool) (st_token_amount : Nat) : Outcome Nat :=
  if p.token < st_token_amount then .ok p.max_fee
  else if p.liq_target ≤ p.token - st_token_amount then .ok p.min_fee
  else if p.max_fee < p.min_fee then .abort
  else
    match propotion (p.max_fee - p.min_fee) (p.token - st_token_amount) p.liq_target with
    | .ok v => if v ≤ p.max_fee then .ok (p.max_fee - v) else .abort
    | .err e => .err e
    | .abort => .abort

/-- `liq_pool.rs`: `LiqPool::swap`.  `self.token -= out_token_amount` cannot
underflow because of the guard; `self.st_token += st_token_amount` is an
overflow-checked `u64` addition performed after it. -/
def LiqPool.swap (p : LiqPool) (st_token_amount : Nat) : Outcome Nat × LiqPool :=
  match p.linear_fee st_token_amount with
  | .ok fee =>
    match apply_fee st_token_amount fee with
    | .ok out_token_amount =>
      if p.token < out_token_amount then (.err .InsufficientLiquidity, p)
      else if U64 ≤ p.st_token + st_token_amount then
        (.abort, { p with token := p.token - out_token_amount })
      else
        (.ok out_token_amount,
          { p with token := p.token - out_token_amount,
                   st_token := p.st_token + st_token_amount })
    | .err e => (.err e, p)
    | .abort => (.abort, p)
  | .err e => (.err e, p)
  | .abort => (.abort, p)

/-- The post-fee payout `apply_fee(st_token_amount, linear_fee(st_token_amount))`
that a swap of `st_token_amount` on pool `p` would pay out. -/
def LiqPool.swap_payout (p : LiqPool) (st_token_amount : Nat) : Outcome Nat :=
  match p.linear_fee st_token_amount with
  | .ok fee => apply_fee st_token_amount fee
  | .err e => .err e
  | .abort => .abort

/-- One client call on the pool: the three public mutating operations. -/
inductive Op where
  | addLiq (token_amount : Nat)
  | removeLiq (lp_token_amount : Nat)
  | swapOp (st_token_amount : Nat)
deriving DecidableEq

/-- Forget an outcome's `Ok` payload, keeping whether the call returned `Ok`,
which error it returned, or aborted. -/
def Outcome.discard {α : Type} : Outcome α → Outcome Unit
  | .ok _ => .ok ()
  | .err e => .err e
  | .abort => .abort

/-- Run one client call on a pool: its outcome (with the payload forgotten)
and the pool state after the call. -/
def Op.run (o : Op) (p : LiqPool) : Outcome Unit × LiqPool :=
  match o with
  | .addLiq x => ((p.add_liquidity x).1.discard, (p.add_liquidity x).2)
  | .removeLiq x => ((p.remove_liquidity x).1.discard, (p.remove_liquidity x).2)
  | .swapOp x => ((p.swap x).1.discard, (p.swap x).2)

/-- `Reach p ops q`: starting from pool state `p`, the calls in `ops` execute
in order, none of them aborting the process (each returns `Ok` or an error),
and end in pool state `q`. -/
inductive Reach : LiqPool → List Op → LiqPool → Prop where
  | nil (p : LiqPool) : Reach p [] p
  | cons {p q r : LiqPool} {o : Op} {ops : List Op} :
      (o.run p).1 ≠ .abort → (o.run p).2 = q → Reach q ops r → Reach p (o :: ops) r

/-! ## Facts about the numeric core -/

/-- `propotion` succeeds exactly on a nonzero denominator and a quotient that
fits in `u64`, and then returns the floored quotient. -/
theorem propotion_eq_ok {a n d : Nat} (hd : 0 < d) (hq : a * n / d < U64) :
    propotion a n d = .ok (a * n / d) := by
  unfold propotion
  rw [if_neg (Nat.pos_iff_ne_zero.mp hd), if_pos hq]

/-- Inversion for a successful `propotion`: the denominator was nonzero and
the result is the floored quotient, below `U64`. -/
theorem propotion_ok_inv {a n d q : Nat} (h : propotion a n d = .ok q) :
    0 < d ∧ q = a * n / d ∧ q < U64 := by
  unfold propotion at h
  split at h
  · exact absurd h (by simp)
  · split at h
    · rename_i hd hq
      cases h
      exact ⟨Nat.pos_of_ne_zero hd, rfl, hq⟩
    · exact absurd h (by simp)

/-- A successful `apply_fee` pays out at most the gross amount. -/
theorem apply_fee_ok_le {amount fee out : Nat} (h : apply_fee amount fee = .ok out) :
    out ≤ amount := by
  unfold apply_fee at h
  split at h
  · split at h
    · cases h
      exact Nat.sub_le _ _
    · exact absurd h (by simp)
  · exact absurd h (by simp)
  · exact absurd h (by simp)

/-- A successful `shares` never mints a share amount that outgrows the pool:
if the supply is bounded by the total value, the new supply is bounded by the
new total value. -/
theorem shares_ok_bound {v total supply m : Nat} (h : shares v total supply = .ok m)
    (hle : supply ≤ total) : supply + m ≤ total + v := by
  unfold shares at h
  split at h
  · rename_i hs
    cases h
    subst hs
    omega
  · obtain ⟨hpos, hm, -⟩ := propotion_ok_inv h
    have hmv : m ≤ v := by
      subst hm
      calc v * supply / total ≤ v * total / total :=
            Nat.div_le_div_right (Nat.mul_le_mul_left v hle)
        _ = v := Nat.mul_div_cancel v hpos
    omega

/-- Taking an `x/s`-fraction (`x ≤ s`) of a balance `t` by floor division
yields at most `t`. -/
theorem div_frac_le {x s t : Nat} (hs : 0 < s) (hx : x ≤ s) : x * t / s ≤ t := by
  calc x * t / s ≤ s * t / s := Nat.div_le_div_right (Nat.mul_le_mul_right t hx)
    _ = t := Nat.mul_div_cancel_left t hs

/-- Floor-division bookkeeping for `remove_liquidity`: after paying out the
`x/s`-fraction of a balance `t`, at least the `(s-x)/s`-fraction remains. -/
theorem remove_keep_bound {s x t : Nat} :
    (s - x) * t ≤ s * (t - x * t / s) := by
  have h1 : s * (x * t / s) ≤ x * t := by
    calc s * (x * t / s) = (x * t / s) * s := Nat.mul_comm _ _
      _ ≤ x * t := Nat.div_mul_le_self _ _
  calc (s - x) * t = s * t - x * t := Nat.sub_mul s x t
    _ ≤ s * t - s * (x * t / s) := Nat.sub_le_sub_left h1 _
    _ = s * (t - x * t / s) := by
        rw [Nat.mul_comm s (t - x * t / s), Nat.sub_mul, Nat.mul_comm t s,
          Nat.mul_comm (x * t / s) s]

/-! ## The total-value invariant `lp_token_supply ≤ token + st_token` -/

/-- A non-aborting `add_liquidity` call preserves the bound of the pool-share
supply by the total pool value. -/
theorem add_liquidity_bound {p : LiqPool} {x : Nat}
    (h : (p.add_liquidity x).1 ≠ .abort)
    (hinv : p.lp_token_supply ≤ p.token + p.st_token) :
    (p.add_liquidity x).2.lp_token_supply ≤
      (p.add_liquidity x).2.token + (p.add_liquidity x).2.st_token := by
  by_cases h1 : U64 ≤ p.st_token + p.token
  · exact absurd (by simp [LiqPool.add_liquidity, h1]) h
  · rcases hE : shares x (p.st_token + p.token) p.lp_token_supply with m | e | _
    · by_cases h2 : U64 ≤ p.token + x
      · exact absurd (by simp [LiqPool.add_liquidity, h1, hE, h2]) h
      · by_cases h3 : U64 ≤ p.lp_token_supply + m
        · exact absurd (by simp [LiqPool.add_liquidity, h1, hE, h2, h3]) h
        · have hb := shares_ok_bound hE
            (show p.lp_token_supply ≤ p.st_token + p.token by omega)
          simp [LiqPool.add_liquidity, h1, hE, h2, h3]
          omega
    · simpa [LiqPool.add_liquidity, h1, hE] using hinv
    · exact absurd (by simp [LiqPool.add_liquidity, h1, hE]) h

/-- A non-aborting `remove_liquidity` call preserves the bound of the
pool-share supply by the total pool value. -/
theorem remove_liquidity_bound {p : LiqPool} {x : Nat}
    (h : (p.remove_liquidity x).1 ≠ .abort)
    (hinv : p.lp_token_supply ≤ p.token + p.st_token) :
    (p.remove_liquidity x).2.lp_token_supply ≤
      (p.remove_liquidity x).2.token + (p.remove_liquidity x).2.st_token := by
  by_cases hg : p.lp_token_supply < x
  · simpa [LiqPool.remove_liquidity, hg] using hinv
  · rcases hE1 : propotion x p.token p.lp_token_supply with ta | e | _
    · rcases hE2 : propotion x p.st_token p.lp_token_supply with sa | e2 | _
      · obtain ⟨hs, hta, -⟩ := propotion_ok_inv hE1
        obtain ⟨-, hsa, -⟩ := propotion_ok_inv hE2
        have hxle : x ≤ p.lp_token_supply := Nat.not_lt.mp hg
        have h1 : ta ≤ p.token := hta ▸ div_frac_le hs hxle
        have h2 : sa ≤ p.st_token := hsa ▸ div_frac_le hs hxle
        have k1 : (p.lp_token_supply - x) * p.token ≤ p.lp_token_supply * (p.token - ta) :=
          hta ▸ remove_keep_bound
        have k2 : (p.lp_token_supply - x) * p.st_token ≤ p.lp_token_supply * (p.st_token - sa) :=
          hsa ▸ remove_keep_bound
        have k3 : p.lp_token_supply * (p.lp_token_supply - x) ≤
            p.lp_token_supply * ((p.token - ta) + (p.st_token - sa)) := by
          calc p.lp_token_supply * (p.lp_token_supply - x)
              = (p.lp_token_supply - x) * p.lp_token_supply := Nat.mul_comm _ _
            _ ≤ (p.lp_token_supply - x) * (p.token + p.st_token) :=
                Nat.mul_le_mul_left _ hinv
            _ = (p.lp_token_supply - x) * p.token + (p.lp_token_supply - x) * p.st_token :=
                Nat.mul_add _ _ _
            _ ≤ p.lp_token_supply * (p.token - ta) + p.lp_token_supply * (p.st_token - sa) :=
                Nat.add_le_add k1 k2
            _ = p.lp_token_supply * ((p.token - ta) + (p.st_token - sa)) :=
                (Nat.mul_add _ _ _).symm
        have hmain : p.lp_token_supply - x ≤ (p.token - ta) + (p.st_token - sa) :=
          Nat.le_of_mul_le_mul_left k3 hs
        simpa [LiqPool.remove_liquidity, hg, hE1, hE2, h1, h2] using hmain
      · simpa [LiqPool.remove_liquidity, hg, hE1, hE2] using hinv
      · exact absurd (by simp [LiqPool.remove_liquidity, hg, hE1, hE2]) h
    · simpa [LiqPool.remove_liquidity, hg, hE1] using hinv
    · exact absurd (by simp [LiqPool.remove_liquidity, hg, hE1]) h

/-- A non-aborting `swap` call preserves the bound of the pool-share supply by
the total pool value. -/
theorem swap_bound {p : LiqPool} {x : Nat}
    (h : (p.swap x).1 ≠ .abort)
    (hinv : p.lp_token_supply ≤ p.token + p.st_token) :
    (p.swap x).2.lp_token_supply ≤ (p.swap x).2.token + (p.swap x).2.st_token := by
  rcases hF : p.linear_fee x with fee | e | _
  · rcases hA : apply_fee x fee with out | e2 | _
    · have hox : out ≤ x := apply_fee_ok_le hA
      by_cases hg : p.token < out
      · simpa [LiqPool.swap, hF, hA, hg] using hinv
      · by_cases ho : U64 ≤ p.st_token + x
        · exact absurd (by simp [LiqPool.swap, hF, hA, hg, ho]) h
        · simp [LiqPool.swap, hF, hA, hg, ho]
          omega
    · simpa [LiqPool.swap, hF, hA] using hinv
    · exact absurd (by simp [LiqPool.swap, hF, hA]) h
  · simpa [LiqPool.swap, hF] using hinv
  · exact absurd (by simp [LiqPool.swap, hF]) h

/-- An outcome whose payload was forgotten is an abort exactly when the
original outcome was. -/
theorem Outcome.discard_eq_abort {α : Type} {r : Outcome α} :
    r.discard = .abort ↔ r = .abort := by
  cases r <;> simp [Outcome.discard]

/-- Any single non-aborting client call preserves the bound of the pool-share
supply by the total pool value. -/
theorem op_run_bound {p : LiqPool} {o : Op}
    (h : (o.run p).1 ≠ .abort)
    (hinv : p.lp_token_supply ≤ p.token + p.st_token) :
    (o.run p).2.lp_token_supply ≤ (o.run p).2.token + (o.run p).2.st_token := by
  cases o with
  | addLiq x =>
    have h' : (p.add_liquidity x).1 ≠ .abort :=
      fun hc => h (by simp [Op.run, Outcome.discard_eq_abort, hc])
    simpa [Op.run] using add_liquidity_bound h' hinv
  | removeLiq x =>
    have h' : (p.remove_liquidity x).1 ≠ .abort :=
      fun hc => h (by simp [Op.run, Outcome.discard_eq_abort, hc])
    simpa [Op.run] using remove_liquidity_bound h' hinv
  | swapOp x =>
    have h' : (p.swap x).1 ≠ .abort :=
      fun hc => h (by simp [Op.run, Outcome.discard_eq_abort, hc])
    simpa [Op.run] using swap_bound h' hinv

/-- The total-value bound is preserved along every non-aborting execution. -/
theorem reach_bound {p q : LiqPool} {ops : List Op} (hr : Reach p ops q) :
    p.lp_token_supply ≤ p.token + p.st_token →
      q.lp_token_supply ≤ q.token + q.st_token := by
  induction hr with
  | nil => exact id
  | cons h1 h2 _ ih => exact fun hinv => ih (h2 ▸ op_run_bound h1 hinv)

/-- A `b`-scaled fraction `la / lt` with `la ≤ lt` is at most `b`. -/
theorem frac_le_base {b la lt : Nat} (hla : la ≤ lt) (hlt : 0 < lt) :
    b * la / lt ≤ b := by
  calc b * la / lt ≤ b * lt / lt := Nat.div_le_div_right (Nat.mul_le_mul_left _ hla)
    _ = b := Nat.mul_div_cancel _ hlt

/-- With a coherent fee range (`min_fee ≤ max_fee < U64`), `linear_fee`
always succeeds and returns the piecewise-linear fee the source computes:
`max_fee` when the requested amount exceeds the held base tokens, `min_fee`
when the post-swap liquidity reaches the target, and otherwise the linear
interpolation evaluated at the post-swap liquidity level. -/
theorem linear_fee_eq (p : LiqPool) (st_token_amount : Nat)
    (hfee : p.min_fee ≤ p.max_fee) (hmax : p.max_fee < U64) :
    p.linear_fee st_token_amount =
      .ok (if p.token < st_token_amount then p.max_fee
        else if p.liq_target ≤ p.token - st_token_amount then p.min_fee
        else p.max_fee -
          (p.max_fee - p.min_fee) * (p.token - st_token_amount) / p.liq_target) := by
  unfold LiqPool.linear_fee
  by_cases h1 : p.token < st_token_amount
  · simp [h1]
  · simp only [if_neg h1]
    by_cases h2 : p.liq_target ≤ p.token - st_token_amount
    · simp [h2]
    · simp only [if_neg h2]
      rw [if_neg (Nat.not_lt.mpr hfee)]
      have hlt : 0 < p.liq_target := by omega
      have hla : p.token - st_token_amount ≤ p.liq_target := by omega
      have hq : (p.max_fee - p.min_fee) * (p.token - st_token_amount) / p.liq_target
          ≤ p.max_fee - p.min_fee := frac_le_base hla hlt
      rw [propotion_eq_ok hlt (by omega)]
      simp [Nat.le_trans hq (Nat.sub_le _ _)]

/-- Every fee `linear_fee` actually returns is clamped to
`[min_fee, max_fee]`, for any pool with a coherent fee range. -/
theorem linear_fee_range {p : LiqPool} {a f : Nat} (hfee : p.min_fee ≤ p.max_fee)
    (h : p.linear_fee a = .ok f) : p.min_fee ≤ f ∧ f ≤ p.max_fee := by
  unfold LiqPool.linear_fee at h
  by_cases h1 : p.token < a
  · rw [if_pos h1] at h
    cases h
    exact ⟨hfee, Nat.le_refl _⟩
  · rw [if_neg h1] at h
    by_cases h2 : p.liq_target ≤ p.token - a
    · rw [if_pos h2] at h
      cases h
      exact ⟨Nat.le_refl _, hfee⟩
    · rw [if_neg h2, if_neg (Nat.not_lt.mpr hfee)] at h
      have hlt : 0 < p.liq_target := by omega
      have hla : p.token - a ≤ p.liq_target := by omega
      rcases hE : propotion (p.max_fee - p.min_fee) (p.token - a) p.liq_target
          with v | e | _
      · obtain ⟨-, hv, -⟩ := propotion_ok_inv hE
        have hvle : v ≤ p.max_fee - p.min_fee := hv ▸ frac_le_base hla hlt
        rw [hE] at h
        simp only [Nat.le_trans hvle (Nat.sub_le _ _), if_pos] at h
        cases h
        omega
      · rw [hE] at h
        exact absurd h (by simp)
      · rw [hE] at h
        exact absurd h (by simp)

/-- The only error `propotion` ever returns is `CalculationError`. -/
theorem propotion_err {a n d : Nat} {e : LiqPoolError}
    (h : propotion a n d = .err e) : e = .CalculationError := by
  unfold propotion at h
  split at h
  · exact absurd h (by simp)
  · split at h
    · exact absurd h (by simp)
    · cases h
      rfl

/-- The only error `apply_fee` ever returns is `CalculationError`. -/
theorem apply_fee_err {a f : Nat} {e : LiqPoolError}
    (h : apply_fee a f = .err e) : e = .CalculationError := by
  unfold apply_fee at h
  split at h
  · split at h
    · exact absurd h (by simp)
    · exact absurd h (by simp)
  · rename_i e2 heq
    cases h
    unfold value at heq
    exact propotion_err heq
  · exact absurd h (by simp)

/-- The only error `linear_fee` ever returns is `CalculationError`. -/
theorem linear_fee_err {p : LiqPool} {a : Nat} {e : LiqPoolError}
    (h : p.linear_fee a = .err e) : e = .CalculationError := by
  unfold LiqPool.linear_fee at h
  by_cases h1 : p.token < a
  · rw [if_pos h1] at h
    exact absurd h (by simp)
  · rw [if_neg h1] at h
    by_cases h2 : p.liq_target ≤ p.token - a
    · rw [if_pos h2] at h
      exact absurd h (by simp)
    · rw [if_neg h2] at h
      by_cases h3 : p.max_fee < p.min_fee
      · rw [if_pos h3] at h
        exact absurd h (by simp)
      · rw [if_neg h3] at h
        split at h
        · split at h
          · exact absurd h (by simp)
          · exact absurd h (by simp)
        · rename_i e2 heq
          cases h
          exact propotion_err heq
        · exact absurd h (by simp)

/-- `swap` never changes the pool-share supply, whatever its outcome. -/
theorem swap_supply (p : LiqPool) (x : Nat) :
    (p.swap x).2.lp_token_supply = p.lp_token_supply := by
  rcases hF : p.linear_fee x with fee | e | _
  · rcases hA : apply_fee x fee with out | e2 | _
    · by_cases hg : p.token < out
      · simp [LiqPool.swap, hF, hA, hg]
      · by_cases ho : U64 ≤ p.st_token + x
        · simp [LiqPool.swap, hF, hA, hg, ho]
        · simp [LiqPool.swap, hF, hA, hg, ho]
    · simp [LiqPool.swap, hF, hA]
    · simp [LiqPool.swap, hF, hA]
  · simp [LiqPool.swap, hF]
  · simp [LiqPool.swap, hF]

/-- On a pool with zero pool-share supply, a non-aborting `remove_liquidity`
call leaves the pool untouched (it can only be the `InvalidInputData` error;
`remove_liquidity(0)` divides by zero and aborts). -/
theorem remove_liquidity_supply_zero {p : LiqPool} {x : Nat}
    (h : (p.remove_liquidity x).1 ≠ .abort) (hs : p.lp_token_supply = 0) :
    (p.remove_liquidity x).2 = p := by
  by_cases hg : p.lp_token_supply < x
  · simp [LiqPool.remove_liquidity, hg]
  · have hx : x = 0 := by omega
    subst hx
    have hab : propotion 0 p.token p.lp_token_supply = .abort := by
      simp [propotion, hs]
    exact absurd (by simp [LiqPool.remove_liquidity, hg, hab]) h

/-- Along any non-aborting execution that performs no `add_liquidity` call,
the pool-share supply stays zero. -/
theorem reach_supply_zero {p q : LiqPool} {ops : List Op} (hr : Reach p ops q) :
    p.lp_token_supply = 0 → (∀ x, Op.addLiq x ∉ ops) → q.lp_token_supply = 0 := by
  induction hr with
  | nil => exact fun hs _ => hs
  | @cons p' q' r' o' ops' h1 h2 _ ih =>
    intro hs hno
    have hno' : ∀ x, Op.addLiq x ∉ ops' := fun x hx => hno x (List.mem_cons_of_mem _ hx)
    refine ih ?_ hno'
    cases o' with
    | addLiq x => exact absurd (List.mem_cons_self _ _) (hno x)
    | removeLiq x =>
      have h1' : (p'.remove_liquidity x).1 ≠ .abort :=
        fun hc => h1 (by simp [Op.run, Outcome.discard_eq_abort, hc])
      have hkeep := remove_liquidity_supply_zero h1' hs
      rw [← h2]
      simp [Op.run, hkeep, hs]
    | swapOp x =>
      rw [← h2]
      simpa [Op.run, swap_supply] using hs

/-! ## The claims -/

/-- C1: for every pool with `max_fee ≥ min_fee` (and a `u64`-valid `max_fee`),
`linear_fee(st_token_amount)` returns `max_fee` when `st_token_amount > token`;
otherwise, with `liq_after = token - st_token_amount`, it returns `min_fee`
when `liq_after ≥ liq_target`, and otherwise
`max_fee - propotion(max_fee - min_fee, liq_after, liq_target)`: the fee is
evaluated at the post-swap liquidity level. -/
theorem C1_linear_fee_formula (p : LiqPool) (st_token_amount : Nat)
    (hfee : p.min_fee ≤ p.max_fee) (hmax : p.max_fee < U64) :
    p.linear_fee st_token_amount =
      .ok (if p.token < st_token_amount then p.max_fee
        else if p.liq_target ≤ p.token - st_token_amount then p.min_fee
        else p.max_fee -
          (p.max_fee - p.min_fee) * (p.token - st_token_amount) / p.liq_target) :=
  linear_fee_eq p st_token_amount hfee hmax

/-- C1 witness: the repository's own `test_linear_fee_with_target_not_reached`
scenario, a pool holding `100030` tokens with target `100000` and fee range
`[0.3%, 3%]`; unstaking `9030` tokens leaves post-swap liquidity `91000`, so
the fee is `3% - 2.7% * 91000/100000 = 0.543%`. -/
theorem C1_linear_fee_formula_witness :
    (LiqPool.mk 30000000 3000000 100000000000000 100030000000000 0
      100030000000000).linear_fee 9030000000000 = .ok 5430000 :=
  C1_linear_fee_formula _ _ (by decide) (by decide)

/-- C2 counterexample: with `a = n = 2^63` and `d = 1` the product is
representable in the 128-bit intermediate, yet `propotion` returns
`CalculationError` instead of the floored quotient `2^126`, which does not
fit back into `u64`. -/
theorem C2_propotion_overflow_cex :
    propotion 9223372036854775808 9223372036854775808 1 = .err .CalculationError ∧
      propotion 9223372036854775808 9223372036854775808 1 ≠
        .ok (9223372036854775808 * 9223372036854775808 / 1) :=
  ⟨by decide, by decide⟩

/-- C2 (amended): for `u64` inputs with a positive denominator, `propotion`
returns exactly `floor(a*n/d)` — no precision is lost in the widened
multiply-then-divide — whenever that quotient fits in `u64`, and fails with
`CalculationError` when it does not. -/
theorem C2_propotion_exact (a n d : Nat) (ha : a < U64) (hn : n < U64) (hd : 0 < d) :
    (a * n / d < U64 → propotion a n d = .ok (a * n / d)) ∧
    (U64 ≤ a * n / d → propotion a n d = .err .CalculationError) := by
  constructor
  · exact fun hq => propotion_eq_ok hd hq
  · intro hq
    unfold propotion
    rw [if_neg (Nat.pos_iff_ne_zero.mp hd), if_neg (Nat.not_lt.mpr hq)]

/-- C2 witness: `propotion 6 7 2 = floor(42/2) = 21`. -/
theorem C2_propotion_exact_witness : propotion 6 7 2 = .ok 21 :=
  (C2_propotion_exact 6 7 2 (by decide) (by decide) (by decide)).1 (by decide)

/-- C6 counterexample: constructing a pool with `max_fee = 0 < 1 = min_fee`
aborts the process; no error value is returned to the caller. -/
theorem C6_new_aborts_cex : LiqPool.new 0 1 0 = .abort := by decide

/-- C6 (amended): constructing a pool with `max_fee < min_fee` aborts the
process (the source calls an explicit abort) rather than returning an error
result; construction with `max_fee ≥ min_fee` yields a pool with `token = 0`,
`st_token = 0` and `lp_token_supply = 0`. -/
theorem C6_new_spec (max_fee min_fee liq_target : Nat) :
    (max_fee < min_fee → LiqPool.new max_fee min_fee liq_target = .abort) ∧
    (min_fee ≤ max_fee → LiqPool.new max_fee min_fee liq_target =
      .ok (LiqPool.mk max_fee min_fee liq_target 0 0 0)) := by
  constructor
  · intro h
    unfold LiqPool.new
    rw [if_pos h]
  · intro h
    unfold LiqPool.new
    rw [if_neg (Nat.not_lt.mpr h)]

/-- C7 counterexample: `apply_fee(1, 2·UNIT)` computes `value(1, 2·UNIT) = 2`
and the subtraction `1 - 2` underflows: the call aborts the process instead
of failing with `CalculationError`. -/
theorem C7_apply_fee_underflow_cex :
    apply_fee 1 2000000000 = .abort ∧
      apply_fee 1 2000000000 ≠ .err .CalculationError :=
  ⟨by decide, by decide⟩

/-- C7 (amended): for a `u64` amount, `apply_fee(amount, fee)` returns
`amount - value(amount, fee)` whenever the fee-value does not exceed the
amount — in particular for every fee fraction `fee ≤ UNIT` — and when the
subtraction would underflow it aborts the process rather than returning
`CalculationError`. -/
theorem C7_apply_fee_spec (amount fee : Nat) (hwf : amount < U64) :
    (fee ≤ UNIT → apply_fee amount fee = .ok (amount - amount * fee / UNIT)) ∧
    (∀ v, value amount fee = .ok v → amount < v → apply_fee amount fee = .abort) := by
  constructor
  · intro hfee
    have hvle : amount * fee / UNIT ≤ amount := by
      calc amount * fee / UNIT ≤ amount * UNIT / UNIT :=
            Nat.div_le_div_right (Nat.mul_le_mul_left _ hfee)
        _ = amount := Nat.mul_div_cancel _ (by decide)
    have hV : value amount fee = .ok (amount * fee / UNIT) :=
      propotion_eq_ok (by decide) (lt_of_le_of_lt hvle hwf)
    unfold apply_fee
    rw [hV]
    simp [hvle]
  · intro v hV hlt
    unfold apply_fee
    rw [hV]
    simp [Nat.not_le.mpr hlt]

/-- C7 witness: a 10% fee (`0.1 · UNIT`) on an amount of 100 pays out 90. -/
theorem C7_apply_fee_spec_witness : apply_fee 100 100000000 = .ok 90 :=
  (C7_apply_fee_spec 100 100000000 (by decide)).1 (by decide)

/-- C3: for every pool state, `swap(st_token_amount)` fails with
`InsufficientLiquidity` exactly when the post-fee payout
`apply_fee(st_token_amount, linear_fee(st_token_amount))` exceeds `token`; on
that failure no field of the pool is mutated; and on success it mutates
`token -= out_token_amount` and `st_token += st_token_amount` and returns the
payout. -/
theorem C3_swap_spec (p : LiqPool) (st_token_amount : Nat) :
    ((p.swap st_token_amount).1 = .err .InsufficientLiquidity ↔
      ∃ out, p.swap_payout st_token_amount = .ok out ∧ p.token < out) ∧
    ((p.swap st_token_amount).1 = .err .InsufficientLiquidity →
      (p.swap st_token_amount).2 = p) ∧
    (∀ out, (p.swap st_token_amount).1 = .ok out →
      p.swap_payout st_token_amount = .ok out ∧
      (p.swap st_token_amount).2 =
        { p with token := p.token - out,
                 st_token := p.st_token + st_token_amount }) := by
  rcases hF : p.linear_fee st_token_amount with fee | e | _
  · rcases hA : apply_fee st_token_amount fee with out | e2 | _
    · have hP : p.swap_payout st_token_amount = .ok out := by
        simp [LiqPool.swap_payout, hF, hA]
      by_cases hg : p.token < out
      · have hswap : p.swap st_token_amount = (.err .InsufficientLiquidity, p) := by
          simp [LiqPool.swap, hF, hA, hg]
        refine ⟨⟨fun _ => ⟨out, hP, hg⟩, fun _ => by rw [hswap]⟩,
          fun _ => by rw [hswap], fun out' hout' => ?_⟩
        rw [hswap] at hout'
        exact absurd hout' (by simp)
      · by_cases ho : U64 ≤ p.st_token + st_token_amount
        · have hswap : p.swap st_token_amount =
              (.abort, { p with token := p.token - out }) := by
            simp [LiqPool.swap, hF, hA, hg, ho]
          refine ⟨⟨fun hc => ?_, fun hex => ?_⟩, fun hc => ?_, fun out' hout' => ?_⟩
          · rw [hswap] at hc
            exact absurd hc (by simp)
          · obtain ⟨out', hout', hlt⟩ := hex
            rw [hP] at hout'
            cases hout'
            exact absurd hlt hg
          · rw [hswap] at hc
            exact absurd hc (by simp)
          · rw [hswap] at hout'
            exact absurd hout' (by simp)
        · have hswap : p.swap st_token_amount =
              (.ok out,
                { p with token := p.token - out,
                         st_token := p.st_token + st_token_amount }) := by
            simp [LiqPool.swap, hF, hA, hg, ho]
          refine ⟨⟨fun hc => ?_, fun hex => ?_⟩, fun hc => ?_, fun out' hout' => ?_⟩
          · rw [hswap] at hc
            exact absurd hc (by simp)
          · obtain ⟨out', hout', hlt⟩ := hex
            rw [hP] at hout'
            cases hout'
            exact absurd hlt hg
          · rw [hswap] at hc
            exact absurd hc (by simp)
          · rw [hswap] at hout'
            simp only [Outcome.ok.injEq] at hout'
            subst hout'
            exact ⟨hP, by rw [hswap]⟩
    · have he2 : e2 = .CalculationError := apply_fee_err hA
      subst he2
      have hswap : p.swap st_token_amount = (.err .CalculationError, p) := by
        simp [LiqPool.swap, hF, hA]
      have hP : p.swap_payout st_token_amount = .err .CalculationError := by
        simp [LiqPool.swap_payout, hF, hA]
      refine ⟨⟨fun hc => ?_, fun hex => ?_⟩, fun hc => ?_, fun out' hout' => ?_⟩
      · rw [hswap] at hc
        exact absurd hc (by simp)
      · obtain ⟨out', hout', -⟩ := hex
        rw [hP] at hout'
        exact absurd hout' (by simp)
      · rw [hswap] at hc
        exact absurd hc (by simp)
      · rw [hswap] at hout'
        exact absurd hout' (by simp)
    · have hswap : p.swap st_token_amount = (.abort, p) := by
        simp [LiqPool.swap, hF, hA]
      have hP : p.swap_payout st_token_amount = .abort := by
        simp [LiqPool.swap_payout, hF, hA]
      refine ⟨⟨fun hc => ?_, fun hex => ?_⟩, fun hc => ?_, fun out' hout' => ?_⟩
      · rw [hswap] at hc
        exact absurd hc (by simp)
      · obtain ⟨out', hout', -⟩ := hex
        rw [hP] at hout'
        exact absurd hout' (by simp)
      · rw [hswap] at hc
        exact absurd hc (by simp)
      · rw [hswap] at hout'
        exact absurd hout' (by simp)
  · have he : e = .CalculationError := linear_fee_err hF
    subst he
    have hswap : p.swap st_token_amount = (.err .CalculationError, p) := by
      simp [LiqPool.swap, hF]
    have hP : p.swap_payout st_token_amount = .err .CalculationError := by
      simp [LiqPool.swap_payout, hF]
    refine ⟨⟨fun hc => ?_, fun hex => ?_⟩, fun hc => ?_, fun out' hout' => ?_⟩
    · rw [hswap] at hc
      exact absurd hc (by simp)
    · obtain ⟨out', hout', -⟩ := hex
      rw [hP] at hout'
      exact absurd hout' (by simp)
    · rw [hswap] at hc
      exact absurd hc (by simp)
    · rw [hswap] at hout'
      exact absurd hout' (by simp)
  · have hswap : p.swap st_token_amount = (.abort, p) := by
      simp [LiqPool.swap, hF]
    have hP : p.swap_payout st_token_amount = .abort := by
      simp [LiqPool.swap_payout, hF]
    refine ⟨⟨fun hc => ?_, fun hex => ?_⟩, fun hc => ?_, fun out' hout' => ?_⟩
    · rw [hswap] at hc
      exact absurd hc (by simp)
    · obtain ⟨out', hout', -⟩ := hex
      rw [hP] at hout'
      exact absurd hout' (by simp)
    · rw [hswap] at hc
      exact absurd hc (by simp)
    · rw [hswap] at hout'
      exact absurd hout' (by simp)

/-- C4 counterexample: on a freshly constructed pool (`lp_token_supply = 0`)
the call `remove_liquidity(0)` satisfies `lp_amount ≤ lp_token_supply`, yet
instead of returning a pair of amounts it divides by the zero supply and
aborts the process. -/
theorem C4_remove_zero_supply_cex :
    ((LiqPool.mk 30000000 3000000 100000000000000 0 0 0).remove_liquidity 0).1 =
        .abort ∧
      (0 : Nat) ≤ (LiqPool.mk 30000000 3000000 100000000000000 0 0 0).lp_token_supply :=
  ⟨by decide, by decide⟩

/-- C4 (amended): `remove_liquidity(lp_amount)` fails with `InvalidInputData`
(mutating nothing) when `lp_amount > lp_token_supply`; when
`lp_amount ≤ lp_token_supply` and the supply is positive it returns
`(floor(lp_amount*token/supply), floor(lp_amount*st_token/supply))` and
decrements `lp_token_supply`, `token`, `st_token` by `lp_amount` and the two
returned amounts (when `lp_amount = lp_token_supply = 0` the code instead
divides by zero and aborts, see the counterexample). -/
theorem C4_remove_liquidity_spec (p : LiqPool) (lp_token_amount : Nat)
    (hwf_t : p.token < U64) (hwf_s : p.st_token < U64) :
    (p.lp_token_supply < lp_token_amount →
      p.remove_liquidity lp_token_amount =
        (.err (.InvalidInputData removeLiquidityMsg), p)) ∧
    (0 < p.lp_token_supply → lp_token_amount ≤ p.lp_token_supply →
      p.remove_liquidity lp_token_amount =
        (.ok (lp_token_amount * p.token / p.lp_token_supply,
              lp_token_amount * p.st_token / p.lp_token_supply),
          { p with lp_token_supply := p.lp_token_supply - lp_token_amount,
                   token := p.token - lp_token_amount * p.token / p.lp_token_supply,
                   st_token :=
                     p.st_token - lp_token_amount * p.st_token / p.lp_token_supply })) := by
  constructor
  · intro hg
    unfold LiqPool.remove_liquidity
    rw [if_pos hg]
  · intro hs hle
    have h1 : lp_token_amount * p.token / p.lp_token_supply ≤ p.token :=
      div_frac_le hs hle
    have h2 : lp_token_amount * p.st_token / p.lp_token_supply ≤ p.st_token :=
      div_frac_le hs hle
    have hE1 : propotion lp_token_amount p.token p.lp_token_supply =
        .ok (lp_token_amount * p.token / p.lp_token_supply) :=
      propotion_eq_ok hs (lt_of_le_of_lt h1 hwf_t)
    have hE2 : propotion lp_token_amount p.st_token p.lp_token_supply =
        .ok (lp_token_amount * p.st_token / p.lp_token_supply) :=
      propotion_eq_ok hs (lt_of_le_of_lt h2 hwf_s)
    unfold LiqPool.remove_liquidity
    rw [if_neg (Nat.not_lt.mpr hle), hE1]
    simp [hE2, h1, h2]

/-- C4 witness: removing 2 of 5 outstanding shares from a pool holding 5 base
and 3 staked tokens pays out `(2, 1)` and leaves `(3, 2, 3)`. -/
theorem C4_remove_liquidity_spec_witness :
    (LiqPool.mk 7 2 50 5 3 5).remove_liquidity 2 =
      (.ok (2, 1), LiqPool.mk 7 2 50 3 2 3) :=
  (C4_remove_liquidity_spec (LiqPool.mk 7 2 50 5 3 5) 2 (by decide) (by decide)).2
    (by decide) (by decide)

/-- C5: the totality claim's failing input, evaluated.  On a freshly
constructed pool (zero supply), `remove_liquidity(0)` passes the
`lp_amount > lp_token_supply` guard and then divides `0 * token` by the zero
supply: the process aborts instead of returning `Ok` or one of the three
error values. -/
theorem C5_remove_zero_on_fresh_pool_aborts :
    LiqPool.new 20000000 1000000 500000000000 =
        .ok (LiqPool.mk 20000000 1000000 500000000000 0 0 0) ∧
      ((LiqPool.mk 20000000 1000000 500000000000 0 0 0).remove_liquidity 0).1 =
        .abort :=
  ⟨by decide, by decide⟩

/-- C8: for every pool with `max_fee ≥ min_fee` (`u64`-valid) and swap
amounts `a2 ≤ a1 ≤ token` — so post-swap liquidity levels
`l1 = token - a1 ≤ l2 = token - a2`, both at most `token` — the fee at the
higher liquidity `l2` is at most the fee at `l1`; and every value
`linear_fee` returns lies in `[min_fee, max_fee]`. -/
theorem C8_linear_fee_monotone (p : LiqPool) (a1 a2 : Nat)
    (hfee : p.min_fee ≤ p.max_fee) (hmax : p.max_fee < U64)
    (h21 : a2 ≤ a1) (h1 : a1 ≤ p.token) :
    (∃ f1 f2, p.linear_fee a1 = .ok f1 ∧ p.linear_fee a2 = .ok f2 ∧ f2 ≤ f1) ∧
    (∀ a f, p.linear_fee a = .ok f → p.min_fee ≤ f ∧ f ≤ p.max_fee) := by
  refine ⟨?_, fun a f hok => linear_fee_range hfee hok⟩
  refine ⟨_, _, linear_fee_eq p a1 hfee hmax, linear_fee_eq p a2 hfee hmax, ?_⟩
  have hn1 : ¬ p.token < a1 := Nat.not_lt.mpr h1
  have hn2 : ¬ p.token < a2 := Nat.not_lt.mpr (Nat.le_trans h21 h1)
  rw [if_neg hn2, if_neg hn1]
  by_cases hl1 : p.liq_target ≤ p.token - a1
  · have hl2 : p.liq_target ≤ p.token - a2 := by omega
    rw [if_pos hl1, if_pos hl2]
  · rw [if_neg hl1]
    have hlt : 0 < p.liq_target := by omega
    by_cases hl2 : p.liq_target ≤ p.token - a2
    · rw [if_pos hl2]
      have hq : (p.max_fee - p.min_fee) * (p.token - a1) / p.liq_target ≤
          p.max_fee - p.min_fee := frac_le_base (by omega) hlt
      omega
    · rw [if_neg hl2]
      apply Nat.sub_le_sub_left
      exact Nat.div_le_div_right (Nat.mul_le_mul_left _ (by omega))

/-- C8 witness: pool `(max 10, min 4, target 100)` holding 50 tokens;
unstaking 30 leaves liquidity 20 (fee 9), unstaking 10 leaves liquidity 40
(fee 8 ≤ 9), and all returned fees lie in `[4, 10]`. -/
theorem C8_linear_fee_monotone_witness :
    (∃ f1 f2, (LiqPool.mk 10 4 100 50 0 0).linear_fee 30 = .ok f1 ∧
        (LiqPool.mk 10 4 100 50 0 0).linear_fee 10 = .ok f2 ∧ f2 ≤ f1) ∧
      (∀ a f, (LiqPool.mk 10 4 100 50 0 0).linear_fee a = .ok f →
        (LiqPool.mk 10 4 100 50 0 0).min_fee ≤ f ∧
          f ≤ (LiqPool.mk 10 4 100 50 0 0).max_fee) :=
  C8_linear_fee_monotone _ 30 10 (by decide) (by decide) (by decide) (by decide)

/-- C9 counterexample: from a freshly constructed pool, the non-aborting call
sequence `add_liquidity(5); remove_liquidity(5)` — in which a deposit did
occur and in fact succeeded, returning 5 minted shares — reaches a state with
`lp_token_supply = 0`, so `lp_token_supply == 0` does not imply that no
deposit has ever occurred. -/
theorem C9_deposit_then_zero_supply_cex :
    LiqPool.new 10 4 100 = .ok (LiqPool.mk 10 4 100 0 0 0) ∧
      Reach (LiqPool.mk 10 4 100 0 0 0) [Op.addLiq 5, Op.removeLiq 5]
        (LiqPool.mk 10 4 100 0 0 0) ∧
      ((LiqPool.mk 10 4 100 0 0 0).add_liquidity 5).1 = .ok 5 ∧
      (LiqPool.mk 10 4 100 0 0 0).lp_token_supply = 0 := by
  have s1 : Reach (LiqPool.mk 10 4 100 5 0 5) [Op.removeLiq 5]
      (LiqPool.mk 10 4 100 0 0 0) :=
    Reach.cons (by decide) (by decide) (Reach.nil _)
  exact ⟨by decide, Reach.cons (by decide) (by decide) s1, by decide, by decide⟩

/-- C9 (amended): in every pool state reachable from construction by a
non-aborting call sequence that contains no `add_liquidity` call,
`lp_token_supply = 0`: if no deposit has ever occurred the supply is zero
(the converse direction of the claimed equivalence fails, see the
counterexample). -/
theorem C9_no_deposit_zero_supply (max_fee min_fee liq_target : Nat)
    (ops : List Op) (p q : LiqPool)
    (hnew : LiqPool.new max_fee min_fee liq_target = .ok p)
    (hreach : Reach p ops q)
    (hnoadd : ∀ x, Op.addLiq x ∉ ops) :
    q.lp_token_supply = 0 := by
  have hp : p.lp_token_supply = 0 := by
    unfold LiqPool.new at hnew
    split at hnew
    · exact absurd hnew (by simp)
    · cases hnew
      rfl
  exact reach_supply_zero hreach hp hnoadd

/-- C9 witness: a fresh pool after one failed swap (no deposit ever) still
has zero pool-share supply. -/
theorem C9_no_deposit_zero_supply_witness :
    (LiqPool.mk 10 4 100 0 0 0).lp_token_supply = 0 :=
  C9_no_deposit_zero_supply 10 4 100 [Op.swapOp 3] (LiqPool.mk 10 4 100 0 0 0)
    (LiqPool.mk 10 4 100 0 0 0) (by decide)
    (Reach.cons (by decide) (by decide) (Reach.nil _))
    (by intro x hx; simp at hx)

/-- C10: in every pool state reachable from construction by a non-aborting
call sequence, `lp_token_supply ≤ token + st_token`; consequently whenever
`lp_token_supply > 0` the total pool value `token + st_token` is positive, so
the division by the total value inside `add_liquidity`'s share computation
(`shares`, in its `total_shares ≠ 0` branch) never divides by zero. -/
theorem C10_supply_le_total_value (max_fee min_fee liq_target : Nat)
    (ops : List Op) (p q : LiqPool)
    (hnew : LiqPool.new max_fee min_fee liq_target = .ok p)
    (hreach : Reach p ops q) :
    q.lp_token_supply ≤ q.token + q.st_token ∧
      (0 < q.lp_token_supply → 0 < q.token + q.st_token) := by
  have hp : p.lp_token_supply ≤ p.token + p.st_token := by
    unfold LiqPool.new at hnew
    split at hnew
    · exact absurd hnew (by simp)
    · cases hnew
      exact Nat.zero_le _
  have hq := reach_bound hreach hp
  exact ⟨hq, fun h => by omega⟩

/-- C10 witness: after one deposit of 5 on a fresh pool, the supply 5 is
bounded by the total value `5 + 0`, which is positive. -/
theorem C10_supply_le_total_value_witness :
    (LiqPool.mk 10 4 100 5 0 5).lp_token_supply ≤
        (LiqPool.mk 10 4 100 5 0 5).token + (LiqPool.mk 10 4 100 5 0 5).st_token ∧
      (0 < (LiqPool.mk 10 4 100 5 0 5).lp_token_supply →
        0 < (LiqPool.mk 10 4 100 5 0 5).token + (LiqPool.mk 10 4 100 5 0 5).st_token) :=
  C10_supply_le_total_value 10 4 100 [Op.addLiq 5] (LiqPool.mk 10 4 100 0 0 0)
    (LiqPool.mk 10 4 100 5 0 5) (by decide)
    (Reach.cons (by decide) (by decide) (Reach.nil _))

end LiquidityPool
